import Mathlib

/-!
Shallow embedding of the asset-manager reconciliation core: the engine in
core/reconcile (cache, plan, apply) and the furniture adapter in
feature/furniture/reconcile (gamedata load, storage-key extraction,
single-item and batch mutations).

Conventions of the embedding:
- Go maps are association lists with the newest binding first: an insert
  conses in front, a lookup returns the newest binding, which gives the
  same last-write-wins semantics as map assignment.
- Machine integers are Int (Go int); string positions are at character
  granularity (Go slices bytes; identical on ASCII content).
- Fallible operations return Option or Except; environmental failures
  (network, SQL driver) are outside the model and noted per definition.
-/

namespace AssetManager

/-- Lookup in an association list, newest binding first (Go map read). -/
def mget {α : Type} : List (String × α) → String → Option α
  | [], _ => none
  | (k, v) :: rest, key => if k = key then some v else mget rest key

/-- Character count of a string (Go len counts bytes; identical on ASCII). -/
def strLen (s : String) : Nat := s.data.length

/-- strings.HasSuffix. -/
def strEndsWith (s pat : String) : Bool := List.isSuffixOf pat.data s.data

/-- strings.HasPrefix. -/
def strStartsWith (s pat : String) : Bool := List.isPrefixOf pat.data s.data

/-- Drop the first n characters (Go slice s from n). -/
def strDrop (s : String) (n : Nat) : String := ⟨s.data.drop n⟩

/-- Drop the last n characters (Go slice s up to len minus n). -/
def strDropRight (s : String) (n : Nat) : String := ⟨s.data.take (s.data.length - n)⟩

/-- strings.Split on a single separator character; never returns an empty
    list (the empty string splits to one empty field, as in Go). -/
def splitOnChar (sep : Char) : List Char → List (List Char)
  | [] => [[]]
  | c :: cs =>
    let rest := splitOnChar sep cs
    if c = sep then [] :: rest
    else
      match rest with
      | [] => [[c]]
      | r :: rs => (c :: r) :: rs

/-- Decimal value of a digit list, most significant digit first. -/
def digitsToNat (cs : List Char) : Nat :=
  cs.foldl (fun n c => n * 10 + (c.toNat - 48)) 0

/-- Go strconv.Atoi: an optional sign followed by one or more decimal
    digits (int-range overflow is not modelled). none is the error case. -/
def atoi? (s : String) : Option Int :=
  let core : List Char → Option Int := fun cs =>
    if cs.isEmpty then none
    else if cs.all (fun c => c.isDigit) then some (Int.ofNat (digitsToNat cs))
    else none
  match s.data with
  | [] => none
  | c :: rest =>
    if c = '+' then core rest
    else if c = '-' then (core rest).map (fun i => -i)
    else core (c :: rest)

/-- truncateStr (mutations.go 209-214): cut a string to at most maxLen
    characters. -/
def truncateStr (s : String) (maxLen : Nat) : String :=
  if strLen s ≤ maxLen then s else ⟨s.data.take maxLen⟩

/-- GDItem (adapter.go 93-104): one catalog row. The type field carries the
    injected s / i discriminator; it is json-ignored and never on the wire. -/
structure GDItem where
  id : Int
  className : String
  name : String
  xdim : Int
  ydim : Int
  canSitOn : Bool
  canStandOn : Bool
  canLayOn : Bool
  type : String
  deriving DecidableEq, Repr

/-- DBItem (adapter.go 79-91): a normalized database row, keyed downstream by
    spriteId rendered as a decimal string. -/
structure DBRow where
  id : Int
  spriteId : Int
  itemName : String
  publicName : String
  width : Int
  length : Int
  stackHeight : Int
  canSit : Bool
  canWalk : Bool
  canLay : Bool
  type : String
  deriving DecidableEq, Repr

/-- Which optional logical columns the server profile maps (config.go):
    arcturus and comet map can_sit, can_walk, can_lay and type; the plus
    profile omits can_lay. A missing mapping skips that column in updates. -/
structure ProfileFlags where
  hasCanSit : Bool
  hasCanWalk : Bool
  hasCanLay : Bool
  hasType : Bool
  deriving DecidableEq, Repr

/-- The 110-character buffer below the VARCHAR(120) established by Prepare. -/
def maxNameLen : Nat := 110

/-- The update map built by SyncDBFromGamedata (mutations.go 158-183),
    applied to one matched row. -/
def updateRow (p : ProfileFlags) (gd : GDItem) (r : DBRow) : DBRow :=
  { r with
    itemName := truncateStr gd.className maxNameLen
    publicName := truncateStr gd.name maxNameLen
    width := gd.xdim
    length := gd.ydim
    stackHeight := 1
    canSit := if p.hasCanSit then gd.canSitOn else r.canSit
    canWalk := if p.hasCanWalk then gd.canStandOn else r.canWalk
    canLay := if p.hasCanLay then gd.canLayOn else r.canLay
    type := if p.hasType then gd.type else r.type }

/-- SyncDBFromGamedata (mutations.go 150-206) over the table state: parse the
    key, update every row whose sprite_id matches, and fail when the key does
    not parse or when zero rows were affected. Environmental write failures
    are outside the model; RowsAffected is the number of matched rows. -/
def syncDBFromGamedata (p : ProfileFlags) (key : String) (gd : GDItem)
    (rows : List DBRow) : Except String (List DBRow) :=
  match atoi? key with
  | none => .error ("invalid key " ++ key)
  | some n =>
    let updated := rows.map (fun r => if r.spriteId = n then updateRow p gd r else r)
    if rows.countP (fun r => r.spriteId == n) = 0 then
      .error ("no rows updated for key " ++ key)
    else .ok updated

/-- JSON scalar values as they occur in FurnitureData.json furnitype rows. -/
inductive JVal where
  | jint (i : Int)
  | jstr (s : String)
  | jbool (b : Bool)
  deriving DecidableEq, Repr

/-- One JSON object of a furnitype array: field name to value. -/
abbrev JRow := List (String × JVal)

/-- The FurnitureData.json document: the two sibling furnitype arrays. -/
structure JDoc where
  room : List JRow
  wall : List JRow
  deriving DecidableEq, Repr

/-- encoding/json read of an int field: absent yields the zero value,
    a value of another JSON type fails the unmarshal. -/
def getInt? (r : JRow) (k : String) : Option Int :=
  match mget r k with
  | none => some 0
  | some (.jint i) => some i
  | some _ => none

/-- encoding/json read of a string field. -/
def getStr? (r : JRow) (k : String) : Option String :=
  match mget r k with
  | none => some ""
  | some (.jstr s) => some s
  | some _ => none

/-- encoding/json read of a bool field. -/
def getBool? (r : JRow) (k : String) : Option Bool :=
  match mget r k with
  | none => some false
  | some (.jbool b) => some b
  | some _ => none

/-- json.Unmarshal of one furnitype row into GDItem: only the eight tagged
    fields are read; unknown fields are ignored; the type discriminator is
    json-ignored and left empty. -/
def decodeGDItem (r : JRow) : Option GDItem := do
  let id ← getInt? r "id"
  let cn ← getStr? r "classname"
  let nm ← getStr? r "name"
  let xd ← getInt? r "xdim"
  let yd ← getInt? r "ydim"
  let cs ← getBool? r "cansiton"
  let cst ← getBool? r "canstandon"
  let cl ← getBool? r "canlayon"
  some { id := id, className := cn, name := nm, xdim := xd, ydim := yd,
         canSitOn := cs, canStandOn := cst, canLayOn := cl, type := "" }

/-- json.Marshal of a GDItem back to a row: exactly the eight tagged fields
    (the json-ignored type discriminator is not emitted). -/
def encodeGDItem (i : GDItem) : JRow :=
  [("id", .jint i.id), ("classname", .jstr i.className), ("name", .jstr i.name),
   ("xdim", .jint i.xdim), ("ydim", .jint i.ydim), ("cansiton", .jbool i.canSitOn),
   ("canstandon", .jbool i.canStandOn), ("canlayon", .jbool i.canLayOn)]

/-- json.Unmarshal of a furnitype array: all-or-nothing. -/
def decodeRows : List JRow → Option (List GDItem)
  | [] => some []
  | r :: rs =>
    match decodeGDItem r, decodeRows rs with
    | some i, some is => some (i :: is)
    | _, _ => none

/-- DeleteGamedataBatch (mutations_batch.go 179-257): one read-parse-filter-
    rewrite cycle. An empty key list returns without touching the document;
    non-numeric keys are skipped when building the deletion set; none models
    the fetch/parse error paths. -/
def deleteGamedataBatch (keys : List String) (doc : JDoc) : Option JDoc :=
  if keys.isEmpty then some doc
  else
    match decodeRows doc.room, decodeRows doc.wall with
    | some room, some wall =>
      let ids := keys.filterMap atoi?
      some { room := (room.filter (fun i => !(ids.contains i.id))).map encodeGDItem,
             wall := (wall.filter (fun i => !(ids.contains i.id))).map encodeGDItem }
    | _, _ => none

/-- DeleteDBBatch (mutations_batch.go 79-116): parse the keys, silently
    skipping non-numeric ones, and issue one DELETE with an IN clause over the
    parsed sprite ids (a no-op when none parsed). -/
def deleteDBBatch (keys : List String) (rows : List DBRow) : List DBRow :=
  let spriteIDs := keys.filterMap atoi?
  if spriteIDs.isEmpty then rows
  else rows.filter (fun r => !(spriteIDs.contains r.spriteId))

/-- The object name DeleteStorageBatch (mutations_batch.go 31-57) submits for
    one key: a numeric mapped key resolves through idToClassname, any other
    key is used as the relative path itself. -/
def storageObjectKeyFor (id2c : List (String × String)) (pre : String)
    (key : String) : String :=
  let classname :=
    match atoi? key with
    | some _ =>
      match mget id2c key with
      | some cn => cn
      | none => key
    | none => key
  pre ++ "/" ++ classname ++ ".nitro"

/-- DeleteStorageBatch (mutations_batch.go 19-76): bulk removal of the
    resolved object names. Client-side errors are outside the model; S3
    removal of an absent object is not an error. -/
def deleteStorageBatch (id2c : List (String × String)) (pre : String)
    (keys : List String) (objects : List String) : List String :=
  let toRemove := keys.map (storageObjectKeyFor id2c pre)
  objects.filter (fun o => !(toRemove.contains o))

/-- DeleteStorage (mutations.go 121-147), the single-item variant: the key is
    looked up in idToClassname and the call FAILS when the key is absent; no
    relative-path fallback is attempted. On a hit the canonical object path
    prefix/classname.nitro is removed. -/
def deleteStorage (id2c : List (String × String)) (pre : String) (key : String)
    (objects : List String) : Except String (List String) :=
  match mget id2c key with
  | none =>
    .error ("classname not found for key " ++ key ++
      " (may already be deleted from gamedata)")
  | some cn =>
    let objectKey := pre ++ "/" ++ cn ++ ".nitro"
    .ok (objects.filter (fun o => !(o == objectKey)))

/-- ActionType (core/reconcile/types.go). -/
inductive ActionType where
  | deleteDB
  | deleteGamedata
  | deleteStorage
  | syncDB
  deriving DecidableEq, Repr

/-- Action (core/reconcile/types.go): a planned mutation. The carried gamedata
    item is only populated for syncDB actions; nil is modelled as none. -/
structure Action where
  type : ActionType
  key : String
  reason : String
  gdItem : Option GDItem
  deriving DecidableEq, Repr

/-- SyncDBBatch (mutations_batch.go 120-176): every action is attempted (the
    worker pool is modelled sequentially; each action targets a distinct
    sprite_id) and per-action failures are aggregated into one error reported
    after all attempts. A nil carried item would fail the Go type assertion
    and is modelled as a per-action failure. -/
def syncDBBatch (p : ProfileFlags) (actions : List Action)
    (rows : List DBRow) : List DBRow × Bool :=
  actions.foldl
    (fun (st : List DBRow × Bool) a =>
      match a.gdItem with
      | some gd =>
        match syncDBFromGamedata p a.key gd st.1 with
        | .ok rows2 => (rows2, st.2)
        | .error _ => (st.1, true)
      | none => (st.1, true))
    (rows, false)

/-- The three mutable stores the Mutator touches: the emulator table, the
    gamedata document and the storage object listing. -/
structure World where
  dbRows : List DBRow
  gamedata : JDoc
  storage : List String
  deriving DecidableEq, Repr

/-- ReconcileOptions (core/reconcile/types.go). -/
structure ReconcileOptions where
  dryRun : Bool
  doPurge : Bool
  doSync : Bool
  confirmed : Bool
  deriving DecidableEq, Repr

/-- ApplyPlan (core/reconcile/plan.go 48-180) for the furniture adapter,
    whose Mutator offers all four batch variants, so every kind-group takes
    the batch fast path: gate on confirmed and dry_run, group actions by
    kind, then run DB deletions, gamedata deletions, storage deletions and
    syncs in that order, adding each group size to the executed count and
    stopping at the first failing group. -/
def applyPlan (p : ProfileFlags) (id2c : List (String × String)) (pre : String)
    (actions : List Action) (opts : ReconcileOptions) (w : World) :
    Nat × Option String × World :=
  if !opts.confirmed || opts.dryRun then (0, none, w)
  else
    let dbKeys := (actions.filter (fun a => a.type == ActionType.deleteDB)).map (fun a => a.key)
    let gdKeys := (actions.filter (fun a => a.type == ActionType.deleteGamedata)).map (fun a => a.key)
    let stKeys := (actions.filter (fun a => a.type == ActionType.deleteStorage)).map (fun a => a.key)
    let syncs := actions.filter (fun a => a.type == ActionType.syncDB)
    let w1 : World := { w with dbRows := deleteDBBatch dbKeys w.dbRows }
    let e1 := dbKeys.length
    match deleteGamedataBatch gdKeys w1.gamedata with
    | none => (e1, some "failed to batch delete gamedata keys", w1)
    | some gd2 =>
      let w2 : World := { w1 with gamedata := gd2 }
      let e2 := e1 + gdKeys.length
      let w3 : World := { w2 with storage := deleteStorageBatch id2c pre stKeys w2.storage }
      let e3 := e2 + stKeys.length
      let sres := syncDBBatch p syncs w3.dbRows
      let w4 : World := { w3 with dbRows := sres.1 }
      if sres.2 then (e3, some "failed to batch sync DB", w4)
      else (e3 + syncs.length, none, w4)

/-- ReconcileResult (core/reconcile/types.go): presence bits, display name,
    metadata and the mismatch strings for one key. -/
structure ReconcileResult where
  id : String
  name : String
  dbPresent : Bool
  storagePresent : Bool
  gamedataPresent : Bool
  mismatch : List String
  metadata : List (String × String)
  deriving DecidableEq, Repr

/-- getMissingReason (plan.go 302-318). Go renders the slice with percent-v;
    the model joins the names with spaces inside brackets. -/
def getMissingReason (r : ReconcileResult) : String :=
  let missing :=
    (if !r.gamedataPresent then ["gamedata"] else []) ++
    (if !r.storagePresent then ["storage"] else []) ++
    (if !r.dbPresent then ["database"] else [])
  if missing.isEmpty then "complete"
  else "missing in: [" ++ String.intercalate " " missing ++ "]"

/-- The actions the planning loop body (plan.go 249-295) emits for one
    result: with do_purge and the key missing in any store, one delete per
    store that still has it, then continue (skipping sync); otherwise with
    do_sync, both sides present and mismatches, one sync_db action carrying
    the gamedata item read from the cached index. -/
def actionsForResult (gdIndex : List (String × GDItem)) (opts : ReconcileOptions)
    (r : ReconcileResult) : List Action :=
  if opts.doPurge && (!r.gamedataPresent || !r.storagePresent || !r.dbPresent) then
    (if r.dbPresent then [⟨ActionType.deleteDB, r.id, getMissingReason r, none⟩] else []) ++
    (if r.gamedataPresent then [⟨ActionType.deleteGamedata, r.id, getMissingReason r, none⟩] else []) ++
    (if r.storagePresent then [⟨ActionType.deleteStorage, r.id, getMissingReason r, none⟩] else [])
  else if opts.doSync && !r.mismatch.isEmpty && r.dbPresent && r.gamedataPresent then
    [⟨ActionType.syncDB, r.id,
      "mismatch: [" ++ String.intercalate " " r.mismatch ++ "]", mget gdIndex r.id⟩]
  else []

/-- The action list built by buildPlanFromResults (plan.go 217-299), one
    result at a time in order. The summary counters of the same loop are not
    needed by the claims and are not modelled. -/
def planActions (gdIndex : List (String × GDItem)) (opts : ReconcileOptions) :
    List ReconcileResult → List Action
  | [] => []
  | r :: rs => actionsForResult gdIndex opts r ++ planActions gdIndex opts rs

/-- The three maps LoadGamedataIndex populates under one exclusive lock
    (adapter.go 217-277): the index keyed by the decimal ID string, the
    classnameToID map and the idToClassname map. -/
structure GamedataMaps where
  index : List (String × GDItem)
  c2id : List (String × String)
  id2c : List (String × String)
  deriving DecidableEq, Repr

/-- The empty adapter state created by NewAdapter. -/
def GamedataMaps.empty : GamedataMaps := ⟨[], [], []⟩

/-- One iteration of the load loop (adapter.go 244-265): keep the item when
    ID is positive and classname nonempty, inject the discriminator, write
    the index and both classname maps. -/
def insertItem (ty : String) (m : GamedataMaps) (i : GDItem) : GamedataMaps :=
  if i.id > 0 ∧ i.className ≠ "" then
    let item := { i with type := ty }
    let key := toString i.id
    { index := (key, item) :: m.index,
      c2id := (i.className, key) :: m.c2id,
      id2c := (key, i.className) :: m.id2c }
  else m

/-- LoadGamedataIndex from the empty adapter state: room items first (type s),
    wall items second (type i). -/
def loadGamedataIndex (room wall : List GDItem) : GamedataMaps :=
  wall.foldl (insertItem "i") (room.foldl (insertItem "s") GamedataMaps.empty)

/-- The catalog rows the load keeps: positive ID and nonempty classname. -/
def keptOf (items : List GDItem) : List GDItem :=
  items.filter (fun i => decide (i.id > 0 ∧ i.className ≠ ""))

/-- The prefix-stripped, extension-stripped relative path computed by
    ExtractStorageKey (adapter.go 344-353): drop the configured path head,
    drop one leading slash if present, drop the extension if still a suffix. -/
def relPathNoExt (objectKey pre ext : String) : String :=
  let rel0 := strDrop objectKey (strLen pre)
  let rel1 := if strStartsWith rel0 "/" then strDrop rel0 1 else rel0
  if strEndsWith rel1 ext then strDropRight rel1 (strLen ext) else rel1

/-- The basename used for the mapping lookup: the last slash-separated
    component of the relative path (adapter.go 357-358). -/
def baseNameOf (rp : String) : String := ⟨(splitOnChar '/' rp.data).getLastD []⟩

/-- ExtractStorageKey (adapter.go 333-379): reject keys without the
    extension or the path head; emit the mapped ID when the basename is in
    classnameToID and idToClassname confirms it as the canonical classname
    (also for nested paths, per the comment at adapter.go 367-370); emit the
    relative path without extension otherwise. none models ok equal false. -/
def extractStorageKey (c2id id2c : List (String × String))
    (objectKey pre ext : String) : Option String :=
  if !(strEndsWith objectKey ext) then none
  else if !(strStartsWith objectKey pre) then none
  else
    let rp := relPathNoExt objectKey pre ext
    let fn := baseNameOf rp
    match mget c2id fn with
    | some id =>
      match mget id2c id with
      | some canonicalCN => if canonicalCN = fn then some id else some rp
      | none => some rp
    | none => some rp

/-- LoadStorageSet (adapter.go 280-316) after the mapping-ready signal:
    project every listed object key through ExtractStorageKey and collect
    the accepted keys (the Go set is modelled as the list of inserted keys;
    membership is what the claims consume). -/
def loadStorageSet (maps : GamedataMaps) (objectKeys : List String)
    (pre ext : String) : List String :=
  objectKeys.filterMap (fun k => extractStorageKey maps.c2id maps.id2c k pre ext)

/-- A canonical decimal key: the decimal rendering of a natural number, the
    shape strconv.Itoa gives every positive catalog ID. -/
def isCanonicalDecimal (s : String) : Prop := ∃ n : Nat, Nat.repr n = s

/-- CompareFields (adapter.go 411-464). The Go mismatch strings wrap values
    in single quotes; the model renders them without quotes. -/
def compareFields (db : DBRow) (gd : GDItem) : List String :=
  (if db.publicName ≠ gd.name ∧ db.publicName ≠ gd.className then
    ["name: gd=" ++ gd.name ++ " db=" ++ db.publicName] else []) ++
  (if db.itemName ≠ gd.className then
    ["classname: gd=" ++ gd.className ++ " db=" ++ db.itemName] else []) ++
  (if db.width ≠ gd.xdim then
    ["width: gd=" ++ toString gd.xdim ++ " db=" ++ toString db.width] else []) ++
  (if db.length ≠ gd.ydim then
    ["length: gd=" ++ toString gd.ydim ++ " db=" ++ toString db.length] else []) ++
  (if db.canSit ≠ gd.canSitOn then
    ["can_sit: gd=" ++ toString gd.canSitOn ++ " db=" ++ toString db.canSit] else []) ++
  (if db.canWalk ≠ gd.canStandOn then
    ["can_walk: gd=" ++ toString gd.canStandOn ++ " db=" ++ toString db.canWalk] else []) ++
  (if db.canLay ≠ gd.canLayOn then
    ["can_lay: gd=" ++ toString gd.canLayOn ++ " db=" ++ toString db.canLay] else []) ++
  (if db.type = "i" then
    (if gd.type ≠ "i" then ["type: gd=room db=i (wall)"] else [])
   else
    (if gd.type = "i" then ["type: gd=wall db=" ++ db.type ++ " (not wall)"] else []))

/-- ResolveName (adapter.go 381-390): prefer the database public name. -/
def resolveName (db : Option DBRow) (gd : Option GDItem) : String :=
  match db with
  | some d => d.publicName
  | none =>
    match gd with
    | some g => g.name
    | none => ""

/-- GetMetadata (adapter.go 392-408): classname from gamedata, else from the
    database item name, omitted when empty. -/
def getMetadata (db : Option DBRow) (gd : Option GDItem) : List (String × String) :=
  let v0 := match gd with | some g => g.className | none => ""
  let v := if v0 = "" then (match db with | some d => d.itemName | none => "") else v0
  if v ≠ "" then [("classname", v)] else []

/-- buildResult (engine, part_016 135-176): presence bits from the three
    indices, name and metadata when either side is present, mismatches when
    both are. -/
def buildResult (key : String) (dbIndex : List (String × DBRow))
    (gdIndex : List (String × GDItem)) (storageSet : List String) : ReconcileResult :=
  let dbo := mget dbIndex key
  let gdo := mget gdIndex key
  { id := key
    name := if dbo.isSome || gdo.isSome then resolveName dbo gdo else ""
    dbPresent := dbo.isSome
    storagePresent := storageSet.contains key
    gamedataPresent := gdo.isSome
    mismatch :=
      match dbo, gdo with
      | some d, some g => compareFields d g
      | _, _ => []
    metadata := if dbo.isSome || gdo.isSome then getMetadata dbo gdo else [] }

/-- buildUnion (engine, part_016 113-133): every key any source knows,
    deduplicated. -/
def buildUnion (dbIndex : List (String × DBRow)) (gdIndex : List (String × GDItem))
    (storageSet : List String) : List String :=
  (dbIndex.map Prod.fst ++ gdIndex.map Prod.fst ++ storageSet).dedup

/-- The fixed source data behind the three load functions of one spec. -/
structure Sources where
  dbIndex : List (String × DBRow)
  gdIndex : List (String × GDItem)
  storageSet : List String
  deriving DecidableEq, Repr

/-- ReconcileCache (cache.go 15-30). -/
structure CacheRecord where
  dbIndex : List (String × DBRow)
  gdIndex : List (String × GDItem)
  storageSet : List String
  built : Nat
  ttl : Nat
  deriving DecidableEq, Repr

/-- How many times each adapter load has been invoked. -/
structure LoadCounts where
  db : Nat
  gd : Nat
  storage : Nat
  deriving DecidableEq, Repr

/-- BuildCache (cache.go 54-106): run the three loads (each invocation
    counted once) and stamp the record with the build time and the spec TTL. -/
def buildCache (src : Sources) (ttl now : Nat) (c : LoadCounts) :
    LoadCounts × CacheRecord :=
  (⟨c.db + 1, c.gd + 1, c.storage + 1⟩,
   ⟨src.dbIndex, src.gdIndex, src.storageSet, now, ttl⟩)

/-- IsExpired (cache.go 33-38): a zero TTL is always expired. -/
def isExpired (r : CacheRecord) (now : Nat) : Bool :=
  r.ttl == 0 || decide (now - r.built > r.ttl)

/-- GetOrBuildCache (cache.go 111-153) for one spec cache key,
    sequentialised: the single-flight barrier coalesces concurrent missers
    into one rebuild, so in the model the in-flight double-check coincides
    with the fast path. Returns the counters, the store and the record. -/
def getOrBuildCache (src : Sources) (ttl now : Nat) (store : Option CacheRecord)
    (c : LoadCounts) : LoadCounts × Option CacheRecord × CacheRecord :=
  match store with
  | some r =>
    if !(isExpired r now) then (c, some r, r)
    else
      let built := buildCache src ttl now c
      (built.1, some built.2, built.2)
  | none =>
    let built := buildCache src ttl now c
    (built.1, some built.2, built.2)

/-- reconcileFromCache (plan.go 202-214): one result per union key. -/
def reconcileFromCache (r : CacheRecord) : List ReconcileResult :=
  (buildUnion r.dbIndex r.gdIndex r.storageSet).map
    (fun k => buildResult k r.dbIndex r.gdIndex r.storageSet)

/-- Insertion step of the final sort of ReconcileAll (sort.Slice by id). -/
def insertSorted (x : ReconcileResult) : List ReconcileResult → List ReconcileResult
  | [] => [x]
  | y :: ys => if x.id ≤ y.id then x :: y :: ys else y :: insertSorted x ys

/-- The deterministic ordering of ReconcileAll results (part_016 32-35). -/
def sortResults (rs : List ReconcileResult) : List ReconcileResult :=
  rs.foldr insertSorted []

/-- ReconcileAll (engine, part_016 15-38): builds fresh indices through
    BuildCache on every call - it never consults the cache store - then
    builds one result per union key and sorts by key. -/
def reconcileAll (src : Sources) (ttl now : Nat) (c : LoadCounts) :
    LoadCounts × List ReconcileResult :=
  let built := buildCache src ttl now c
  (built.1, sortResults (reconcileFromCache built.2))

/-- ReconcileWithPlan (plan.go 15-43): record through GetOrBuildCache,
    results from that record, actions from the results and options. -/
def reconcileWithPlan (src : Sources) (ttl now : Nat) (store : Option CacheRecord)
    (c : LoadCounts) (opts : ReconcileOptions) :
    LoadCounts × Option CacheRecord × (List ReconcileResult × List Action) :=
  let got := getOrBuildCache src ttl now store c
  let results := reconcileFromCache got.2.2
  (got.1, got.2.1, (results, planActions got.2.2.gdIndex opts results))

/-- The eight JSON field names GDItem models (adapter.go 93-104). -/
def modeledGamedataKeys : List String :=
  ["id", "classname", "name", "xdim", "ydim", "cansiton", "canstandon", "canlayon"]

/-- Sample profile with every optional column mapped (arcturus, comet). -/
def pAll : ProfileFlags := ⟨true, true, true, true⟩

/-- Sample catalog item. -/
def gdLamp : GDItem := ⟨5, "lamp", "Bright Lamp", 2, 2, true, true, false, "s"⟩

/-- Sample database row for sprite 5, out of sync with the catalog. -/
def rowLamp : DBRow := ⟨1, 5, "lamp", "Lamp", 1, 1, 1, false, false, false, "s"⟩

/-- Sample catalog row carrying a field outside the modeled set. -/
def inRowC8 : JRow :=
  [("id", JVal.jint 1), ("classname", JVal.jstr "a"), ("name", JVal.jstr "n"),
   ("xdim", JVal.jint 1), ("ydim", JVal.jint 1), ("cansiton", JVal.jbool false),
   ("canstandon", JVal.jbool false), ("canlayon", JVal.jbool false),
   ("custom", JVal.jstr "x")]

/-- The document holding that row. -/
def docC8 : JDoc := ⟨[inRowC8], []⟩

/-- What the row becomes after one delete_gamedata_batch rewrite cycle. -/
def outRowC8 : JRow :=
  [("id", JVal.jint 1), ("classname", JVal.jstr "a"), ("name", JVal.jstr "n"),
   ("xdim", JVal.jint 1), ("ydim", JVal.jint 1), ("cansiton", JVal.jbool false),
   ("canstandon", JVal.jbool false), ("canlayon", JVal.jbool false)]

/-- The document after the rewrite. -/
def outDocC8 : JDoc := ⟨[outRowC8], []⟩

/-! ### Helper lemmas -/

@[simp] theorem mget_nil {α : Type} (k : String) :
    mget ([] : List (String × α)) k = none := rfl

@[simp] theorem mget_cons {α : Type} (k key : String) (v : α) (m : List (String × α)) :
    mget ((k, v) :: m) key = if k = key then some v else mget m key := rfl

theorem mget_mem {α : Type} {m : List (String × α)} {k : String} {v : α}
    (h : mget m k = some v) : (k, v) ∈ m := by
  induction m with
  | nil => simp at h
  | cons kv rest ih =>
    obtain ⟨k2, v2⟩ := kv
    rw [mget_cons] at h
    by_cases hk : k2 = k
    · rw [if_pos hk] at h
      obtain rfl := Option.some.inj h
      subst hk
      exact List.mem_cons_self _ _
    · rw [if_neg hk] at h
      exact List.mem_cons_of_mem _ (ih h)

theorem mget_ne_none_of_key {α : Type} {m : List (String × α)} {k : String}
    (h : k ∈ m.map Prod.fst) : mget m k ≠ none := by
  induction m with
  | nil => simp at h
  | cons kv rest ih =>
    obtain ⟨k2, v2⟩ := kv
    rw [mget_cons]
    by_cases hk : k2 = k
    · simp [hk]
    · rw [if_neg hk]
      apply ih
      rcases List.mem_map.mp h with ⟨p2, hp2, hfst⟩
      rcases List.mem_cons.mp hp2 with rfl | hmem
      · exact absurd hfst hk
      · exact hfst ▸ List.mem_map_of_mem Prod.fst hmem

/-! ### Claim theorems -/

/-- C1: for every plan and every options value with confirmed=false or
    dry_run=true, ApplyPlan returns executed=0 with no error and performs no
    mutation: the database, gamedata and storage state are unchanged. -/
theorem applyPlan_confirmation_gate (p : ProfileFlags) (id2c : List (String × String))
    (pre : String) (actions : List Action) (opts : ReconcileOptions) (w : World)
    (h : opts.confirmed = false ∨ opts.dryRun = true) :
    applyPlan p id2c pre actions opts w = (0, none, w) := by
  rcases h with h | h <;> simp [applyPlan, h]

/-- C1 witness: a confirmed dry-run over a nonempty purge plan executes
    nothing and leaves the one-row world untouched. -/
theorem applyPlan_confirmation_gate_witness :
    (⟨true, true, false, true⟩ : ReconcileOptions).dryRun = true ∧
    applyPlan pAll [] "bundled" [⟨ActionType.deleteDB, "5", "missing in: [storage]", none⟩]
      ⟨true, true, false, true⟩ ⟨[rowLamp], ⟨[], []⟩, []⟩
      = (0, none, ⟨[rowLamp], ⟨[], []⟩, []⟩) :=
  ⟨rfl, applyPlan_confirmation_gate _ _ _ _ _ _ (Or.inr rfl)⟩

/-- C3: at the failing input, a storage-orphan key absent from idToClassname,
    the single-item DeleteStorage returns an error instead of removing the
    relative path bundled/ghost.nitro; the batch variant implements the
    claimed relative-path fallback and removes the object. -/
theorem deleteStorage_unmapped_fails :
    deleteStorage [] "bundled" "ghost" ["bundled/ghost.nitro"]
      = .error "classname not found for key ghost (may already be deleted from gamedata)" ∧
    deleteStorageBatch [] "bundled" ["ghost"] ["bundled/ghost.nitro"] = [] :=
  ⟨rfl, by decide⟩

/-- C4 counterexample: two back-to-back ReconcileAll calls against the same
    spec with TTL 5, starting from zero load counts, invoke every adapter
    load twice, not exactly once: ReconcileAll rebuilds through BuildCache on
    every call (part_016 line 17) and never consults the cache store. -/
theorem reconcileAll_always_rebuilds :
    (reconcileAll ⟨[], [], []⟩ 5 0 ⟨0, 0, 0⟩).1 = ⟨1, 1, 1⟩ ∧
    (reconcileAll ⟨[], [], []⟩ 5 1 (reconcileAll ⟨[], [], []⟩ 5 0 ⟨0, 0, 0⟩).1).1
      = ⟨2, 2, 2⟩ ∧ (2 : Nat) ≠ 1 := by decide

/-- C4 amended: reconciliations that go through the cache store, that is
    ReconcileWithPlan backed by GetOrBuildCache: with TTL positive, starting
    from an empty store, a first call at t1 and a second within the TTL at t2
    invoke each adapter load exactly once, and both calls derive their
    results from the same cache record. -/
theorem reconcileWithPlan_cache_hit (src : Sources) (ttl t1 t2 : Nat)
    (opts : ReconcileOptions) (httl : 0 < ttl) (h12 : t1 ≤ t2)
    (hfresh : t2 - t1 ≤ ttl) :
    (reconcileWithPlan src ttl t1 none ⟨0, 0, 0⟩ opts).1 = ⟨1, 1, 1⟩ ∧
    (reconcileWithPlan src ttl t2 (reconcileWithPlan src ttl t1 none ⟨0, 0, 0⟩ opts).2.1
        (reconcileWithPlan src ttl t1 none ⟨0, 0, 0⟩ opts).1 opts).1 = ⟨1, 1, 1⟩ ∧
    (reconcileWithPlan src ttl t2 (reconcileWithPlan src ttl t1 none ⟨0, 0, 0⟩ opts).2.1
        (reconcileWithPlan src ttl t1 none ⟨0, 0, 0⟩ opts).1 opts).2.2
      = (reconcileWithPlan src ttl t1 none ⟨0, 0, 0⟩ opts).2.2 := by
  have hne : (ttl == 0) = false := by
    simp only [beq_eq_false_iff_ne, ne_eq]
    omega
  have hlt : decide (t2 - t1 > ttl) = false := by
    simp only [decide_eq_false_iff_not, gt_iff_lt, not_lt]
    exact hfresh
  refine ⟨rfl, ?_, ?_⟩ <;>
    simp [reconcileWithPlan, getOrBuildCache, buildCache, isExpired, hne, hlt]

/-- C4 amended witness: a concrete empty-source spec with TTL 5, calls at
    times 0 and 3. -/
theorem reconcileWithPlan_cache_hit_witness :
    (0 : Nat) < 5 ∧ (0 : Nat) ≤ 3 ∧ 3 - 0 ≤ 5 ∧
    ((reconcileWithPlan ⟨[], [], []⟩ 5 0 none ⟨0, 0, 0⟩ ⟨false, false, false, false⟩).1
        = ⟨1, 1, 1⟩ ∧
      (reconcileWithPlan ⟨[], [], []⟩ 5 3
          (reconcileWithPlan ⟨[], [], []⟩ 5 0 none ⟨0, 0, 0⟩ ⟨false, false, false, false⟩).2.1
          (reconcileWithPlan ⟨[], [], []⟩ 5 0 none ⟨0, 0, 0⟩ ⟨false, false, false, false⟩).1
          ⟨false, false, false, false⟩).1 = ⟨1, 1, 1⟩ ∧
      (reconcileWithPlan ⟨[], [], []⟩ 5 3
          (reconcileWithPlan ⟨[], [], []⟩ 5 0 none ⟨0, 0, 0⟩ ⟨false, false, false, false⟩).2.1
          (reconcileWithPlan ⟨[], [], []⟩ 5 0 none ⟨0, 0, 0⟩ ⟨false, false, false, false⟩).1
          ⟨false, false, false, false⟩).2.2
        = (reconcileWithPlan ⟨[], [], []⟩ 5 0 none ⟨0, 0, 0⟩ ⟨false, false, false, false⟩).2.2) :=
  ⟨by decide, by decide, by decide,
    reconcileWithPlan_cache_hit ⟨[], [], []⟩ 5 0 3 ⟨false, false, false, false⟩
      (by decide) (by decide) (by decide)⟩

/-- C9: sync_db_from_gamedata errors exactly when no database row carries
    the integer form of the key as sprite_id (a non-numeric key matches no integer
    sprite_id, so it errors too, consistent with the zero-rows-matched
    reading); on success every matched row carries item_name and public_name
    equal to the catalog classname and name truncated to 110 characters.
    Environmental write failures are outside the model. -/
theorem syncDBFromGamedata_spec (p : ProfileFlags) (key : String) (gd : GDItem)
    (rows : List DBRow) :
    ((∃ e, syncDBFromGamedata p key gd rows = .error e) ↔
      ¬ ∃ r ∈ rows, atoi? key = some r.spriteId) ∧
    (∀ rows2, syncDBFromGamedata p key gd rows = .ok rows2 →
      ∀ r ∈ rows2, atoi? key = some r.spriteId →
        r.itemName = truncateStr gd.className maxNameLen ∧
        r.publicName = truncateStr gd.name maxNameLen) := by
  cases hp : atoi? key with
  | none =>
    refine ⟨⟨fun _ => ?_, fun _ => ?_⟩, fun rows2 h2 => ?_⟩
    · rintro ⟨r, _, hsome⟩
      exact Option.noConfusion hsome
    · exact ⟨"invalid key " ++ key, by simp [syncDBFromGamedata, hp]⟩
    · simp [syncDBFromGamedata, hp] at h2
  | some n =>
    by_cases hc : rows.countP (fun r => r.spriteId == n) = 0
    · have hnone : ¬ ∃ r ∈ rows, some n = some r.spriteId := by
        rintro ⟨r, hr, hsome⟩
        have hn : r.spriteId = n := (Option.some.inj hsome).symm
        have := List.countP_eq_zero.mp hc r hr
        simp [hn] at this
      refine ⟨⟨fun _ => hnone, fun _ => ?_⟩, fun rows2 h2 => ?_⟩
      · exact ⟨"no rows updated for key " ++ key, by simp [syncDBFromGamedata, hp, hc]⟩
      · simp [syncDBFromGamedata, hp, hc] at h2
    · have hex : ∃ r ∈ rows, some n = some r.spriteId := by
        have hpos : 0 < rows.countP (fun r => r.spriteId == n) := Nat.pos_of_ne_zero hc
        obtain ⟨r, hr, hbeq⟩ := List.countP_pos_iff.mp hpos
        have heq : r.spriteId = n := by simpa using hbeq
        exact ⟨r, hr, by rw [heq]⟩
      constructor
      · constructor
        · rintro ⟨e, he⟩
          simp [syncDBFromGamedata, hp, hc] at he
        · intro hno
          exact absurd hex hno
      · intro rows2 h2 r hr hmatch
        have hrows2 : rows2 = rows.map
            (fun r0 => if r0.spriteId = n then updateRow p gd r0 else r0) := by
          have := h2
          simp [syncDBFromGamedata, hp, hc] at this
          exact this.symm
        rw [hrows2] at hr
        obtain ⟨r0, hr0, hre⟩ := List.mem_map.mp hr
        by_cases hm : r0.spriteId = n
        · rw [if_pos hm] at hre
          subst hre
          exact ⟨rfl, rfl⟩
        · rw [if_neg hm] at hre
          subst hre
          exact absurd (Option.some.inj hmatch).symm hm

/-- C9 witness: syncing sprite 5 from the catalog over a one-row table. -/
theorem syncDBFromGamedata_spec_witness :
    ((∃ e, syncDBFromGamedata pAll "5" gdLamp [rowLamp] = .error e) ↔
      ¬ ∃ r ∈ [rowLamp], atoi? "5" = some r.spriteId) ∧
    (∀ rows2, syncDBFromGamedata pAll "5" gdLamp [rowLamp] = .ok rows2 →
      ∀ r ∈ rows2, atoi? "5" = some r.spriteId →
        r.itemName = truncateStr gdLamp.className maxNameLen ∧
        r.publicName = truncateStr gdLamp.name maxNameLen) :=
  syncDBFromGamedata_spec pAll "5" gdLamp [rowLamp]

/-- C2 counterexample: a nested object key whose basename is mapped and
    reverse-confirmed emits the ID string, not the relative path without
    extension that the claim requires for every nested path. -/
theorem extractStorageKey_nested_counterexample :
    extractStorageKey [("chair", "1")] [("1", "chair")] "p/sub/chair.nitro" "p" ".nitro"
      = some "1" ∧
    relPathNoExt "p/sub/chair.nitro" "p" ".nitro" = "sub/chair" ∧
    some "1" ≠ some "sub/chair" := by decide

/-- C2 amended: for every object key carrying the configured extension and
    within the configured path head, extract_storage_key emits the ID string
    exactly when the basename of the relative path is known to the
    classname-to-ID map and the reverse map confirms it as the canonical
    classname for that ID, regardless of nesting; for an unmapped basename,
    and for a mapped basename that fails the reverse check, it emits the
    relative-path-without-extension unchanged. -/
theorem extractStorageKey_amended (c2id id2c : List (String × String))
    (objectKey pre ext : String)
    (hext : strEndsWith objectKey ext = true)
    (hpre : strStartsWith objectKey pre = true) :
    (∀ idv, mget c2id (baseNameOf (relPathNoExt objectKey pre ext)) = some idv →
      mget id2c idv = some (baseNameOf (relPathNoExt objectKey pre ext)) →
      extractStorageKey c2id id2c objectKey pre ext = some idv) ∧
    (mget c2id (baseNameOf (relPathNoExt objectKey pre ext)) = none →
      extractStorageKey c2id id2c objectKey pre ext
        = some (relPathNoExt objectKey pre ext)) ∧
    (∀ idv, mget c2id (baseNameOf (relPathNoExt objectKey pre ext)) = some idv →
      mget id2c idv ≠ some (baseNameOf (relPathNoExt objectKey pre ext)) →
      extractStorageKey c2id id2c objectKey pre ext
        = some (relPathNoExt objectKey pre ext)) := by
  refine ⟨fun idv h1 h2 => ?_, fun h1 => ?_, fun idv h1 h2 => ?_⟩
  · simp [extractStorageKey, hext, hpre, h1, h2]
  · simp [extractStorageKey, hext, hpre, h1]
  · cases hrev : mget id2c idv with
    | none => simp [extractStorageKey, hext, hpre, h1, hrev]
    | some cn =>
      have hcn : ¬ cn = baseNameOf (relPathNoExt objectKey pre ext) := by
        intro heq
        exact h2 (by rw [hrev, heq])
      simp [extractStorageKey, hext, hpre, h1, hrev, hcn]

/-- C2 amended witness: the nested mapped basename from the counterexample
    satisfies the amended clauses. -/
theorem extractStorageKey_amended_witness :
    strEndsWith "p/sub/chair.nitro" ".nitro" = true ∧
    strStartsWith "p/sub/chair.nitro" "p" = true ∧
    ((∀ idv, mget [("chair", "1")]
        (baseNameOf (relPathNoExt "p/sub/chair.nitro" "p" ".nitro")) = some idv →
      mget [("1", "chair")] idv
        = some (baseNameOf (relPathNoExt "p/sub/chair.nitro" "p" ".nitro")) →
      extractStorageKey [("chair", "1")] [("1", "chair")] "p/sub/chair.nitro" "p" ".nitro"
        = some idv) ∧
    (mget [("chair", "1")]
        (baseNameOf (relPathNoExt "p/sub/chair.nitro" "p" ".nitro")) = none →
      extractStorageKey [("chair", "1")] [("1", "chair")] "p/sub/chair.nitro" "p" ".nitro"
        = some (relPathNoExt "p/sub/chair.nitro" "p" ".nitro")) ∧
    (∀ idv, mget [("chair", "1")]
        (baseNameOf (relPathNoExt "p/sub/chair.nitro" "p" ".nitro")) = some idv →
      mget [("1", "chair")] idv
        ≠ some (baseNameOf (relPathNoExt "p/sub/chair.nitro" "p" ".nitro")) →
      extractStorageKey [("chair", "1")] [("1", "chair")] "p/sub/chair.nitro" "p" ".nitro"
        = some (relPathNoExt "p/sub/chair.nitro" "p" ".nitro"))) :=
  ⟨by decide, by decide,
    extractStorageKey_amended [("chair", "1")] [("1", "chair")]
      "p/sub/chair.nitro" "p" ".nitro" (by decide) (by decide)⟩

theorem keptOf_cons (i : GDItem) (items : List GDItem) :
    keptOf (i :: items) =
      if i.id > 0 ∧ i.className ≠ "" then i :: keptOf items else keptOf items := by
  by_cases h : i.id > 0 ∧ i.className ≠ "" <;> simp [keptOf, List.filter_cons, h]

theorem insertItem_kept (ty : String) (m : GamedataMaps) (i : GDItem)
    (h : i.id > 0 ∧ i.className ≠ "") :
    insertItem ty m i =
      { index := (toString i.id, { i with type := ty }) :: m.index,
        c2id := (i.className, toString i.id) :: m.c2id,
        id2c := (toString i.id, i.className) :: m.id2c } := by
  simp [insertItem, h]

theorem insertItem_skip (ty : String) (m : GamedataMaps) (i : GDItem)
    (h : ¬(i.id > 0 ∧ i.className ≠ "")) : insertItem ty m i = m := by
  simp [insertItem, h]

theorem foldl_insertItem_c2id_preserve (ty : String) :
    ∀ (items : List GDItem) (m : GamedataMaps) (cn : String),
      (∀ j ∈ keptOf items, j.className ≠ cn) →
      mget ((items.foldl (insertItem ty) m)).c2id cn = mget m.c2id cn := by
  intro items
  induction items with
  | nil => intro m cn _; rfl
  | cons j rest ih =>
    intro m cn h
    rw [List.foldl_cons]
    by_cases hk : j.id > 0 ∧ j.className ≠ ""
    · have hj : j ∈ keptOf (j :: rest) := by
        rw [keptOf_cons, if_pos hk]; exact List.mem_cons_self _ _
      have hrest : ∀ l ∈ keptOf rest, l.className ≠ cn := fun l hl =>
        h l (by rw [keptOf_cons, if_pos hk]; exact List.mem_cons_of_mem _ hl)
      rw [ih _ cn hrest, insertItem_kept ty m j hk]
      simp [mget_cons, h j hj]
    · rw [insertItem_skip ty m j hk]
      exact ih _ cn (fun l hl => h l (by rw [keptOf_cons, if_neg hk]; exact hl))

theorem foldl_insertItem_id2c_preserve (ty : String) :
    ∀ (items : List GDItem) (m : GamedataMaps) (key : String),
      (∀ j ∈ keptOf items, toString j.id ≠ key) →
      mget ((items.foldl (insertItem ty) m)).id2c key = mget m.id2c key := by
  intro items
  induction items with
  | nil => intro m key _; rfl
  | cons j rest ih =>
    intro m key h
    rw [List.foldl_cons]
    by_cases hk : j.id > 0 ∧ j.className ≠ ""
    · have hj : j ∈ keptOf (j :: rest) := by
        rw [keptOf_cons, if_pos hk]; exact List.mem_cons_self _ _
      have hrest : ∀ l ∈ keptOf rest, toString l.id ≠ key := fun l hl =>
        h l (by rw [keptOf_cons, if_pos hk]; exact List.mem_cons_of_mem _ hl)
      rw [ih _ key hrest, insertItem_kept ty m j hk]
      simp [mget_cons, h j hj]
    · rw [insertItem_skip ty m j hk]
      exact ih _ key (fun l hl => h l (by rw [keptOf_cons, if_neg hk]; exact hl))

theorem foldl_insertItem_lockstep (ty : String) :
    ∀ (items : List GDItem) (m : GamedataMaps),
      ((keptOf items).map (fun i => i.className)).Nodup →
      ((keptOf items).map (fun i => toString i.id)).Nodup →
      ∀ i ∈ keptOf items,
        mget ((items.foldl (insertItem ty) m)).c2id i.className = some (toString i.id) ∧
        mget ((items.foldl (insertItem ty) m)).id2c (toString i.id) = some i.className := by
  intro items
  induction items with
  | nil => intro m _ _ i hi; simp [keptOf] at hi
  | cons j rest ih =>
    intro m hcn hid i hi
    rw [List.foldl_cons]
    by_cases hk : j.id > 0 ∧ j.className ≠ ""
    · rw [keptOf_cons, if_pos hk] at hi hcn hid
      rw [List.map_cons] at hcn hid
      obtain ⟨hcn1, hcn2⟩ := List.nodup_cons.mp hcn
      obtain ⟨hid1, hid2⟩ := List.nodup_cons.mp hid
      rcases List.mem_cons.mp hi with rfl | hmem
      · constructor
        · rw [foldl_insertItem_c2id_preserve ty rest _ i.className
            (fun l hl heq => hcn1 (heq ▸ List.mem_map_of_mem _ hl))]
          rw [insertItem_kept ty m i hk]
          simp [mget_cons]
        · rw [foldl_insertItem_id2c_preserve ty rest _ (toString i.id)
            (fun l hl heq => hid1 (heq ▸ List.mem_map_of_mem _ hl))]
          rw [insertItem_kept ty m i hk]
          simp [mget_cons]
      · exact ih _ hcn2 hid2 i hmem
    · rw [keptOf_cons, if_neg hk] at hi hcn hid
      rw [insertItem_skip ty m j hk]
      exact ih _ hcn hid i hi

/-- C7: when the kept catalog rows (positive ID, nonempty classname) carry
    pairwise-distinct classnames and pairwise-distinct ID strings, after
    LoadGamedataIndex the two maps are in lock-step: for every kept item,
    classnameToID maps its classname to its decimal ID and idToClassname
    maps that decimal ID back to its classname. -/
theorem loadGamedataIndex_lockstep (room wall : List GDItem)
    (hcn : ((keptOf room ++ keptOf wall).map (fun i => i.className)).Nodup)
    (hid : ((keptOf room ++ keptOf wall).map (fun i => toString i.id)).Nodup)
    (i : GDItem) (hi : i ∈ keptOf room ++ keptOf wall) :
    mget (loadGamedataIndex room wall).c2id i.className = some (toString i.id) ∧
    mget (loadGamedataIndex room wall).id2c (toString i.id) = some i.className := by
  rw [List.map_append] at hcn hid
  obtain ⟨hcnr, hcnw, hcnd⟩ := List.nodup_append.mp hcn
  obtain ⟨hidr, hidw, hidd⟩ := List.nodup_append.mp hid
  unfold loadGamedataIndex
  rcases List.mem_append.mp hi with hr | hw
  · have base := foldl_insertItem_lockstep "s" room GamedataMaps.empty hcnr hidr i hr
    constructor
    · rw [foldl_insertItem_c2id_preserve "i" wall _ i.className
        (fun l hl heq => hcnd (List.mem_map_of_mem _ hr) (heq ▸ List.mem_map_of_mem _ hl))]
      exact base.1
    · rw [foldl_insertItem_id2c_preserve "i" wall _ (toString i.id)
        (fun l hl heq => hidd (List.mem_map_of_mem _ hr) (heq ▸ List.mem_map_of_mem _ hl))]
      exact base.2
  · exact foldl_insertItem_lockstep "i" wall _ hcnw hidw i hw

/-- C7 witness: a two-item catalog, one room item and one wall item. -/
theorem loadGamedataIndex_lockstep_witness :
    ((keptOf [⟨1, "chair", "Chair", 1, 1, true, false, false, ""⟩]
        ++ keptOf [⟨9, "poster", "Poster", 0, 0, false, false, false, ""⟩]).map
      (fun i => i.className)).Nodup ∧
    ((keptOf [⟨1, "chair", "Chair", 1, 1, true, false, false, ""⟩]
        ++ keptOf [⟨9, "poster", "Poster", 0, 0, false, false, false, ""⟩]).map
      (fun i => toString i.id)).Nodup ∧
    (⟨1, "chair", "Chair", 1, 1, true, false, false, ""⟩ : GDItem) ∈
      keptOf [⟨1, "chair", "Chair", 1, 1, true, false, false, ""⟩]
        ++ keptOf [⟨9, "poster", "Poster", 0, 0, false, false, false, ""⟩] ∧
    (mget (loadGamedataIndex [⟨1, "chair", "Chair", 1, 1, true, false, false, ""⟩]
        [⟨9, "poster", "Poster", 0, 0, false, false, false, ""⟩]).c2id "chair"
      = some "1" ∧
     mget (loadGamedataIndex [⟨1, "chair", "Chair", 1, 1, true, false, false, ""⟩]
        [⟨9, "poster", "Poster", 0, 0, false, false, false, ""⟩]).id2c "1"
      = some "chair") :=
  ⟨by decide, by decide, by decide,
    loadGamedataIndex_lockstep
      [⟨1, "chair", "Chair", 1, 1, true, false, false, ""⟩]
      [⟨9, "poster", "Poster", 0, 0, false, false, false, ""⟩]
      (by decide) (by decide)
      ⟨1, "chair", "Chair", 1, 1, true, false, false, ""⟩ (by decide)⟩

theorem int_toString_canonical (i : Int) (h : i > 0) :
    isCanonicalDecimal (toString i) := by
  match i with
  | Int.ofNat n => exact ⟨n, rfl⟩
  | Int.negSucc n => exact absurd h (by exact Int.not_lt.mpr (Int.negSucc_lt_zero n).le)

/-- Invariant of the gamedata load: every index key is a canonical decimal
    string, and every classnameToID value is an index key. -/
def GamedataMaps.WF (m : GamedataMaps) : Prop :=
  (∀ kv ∈ m.index, isCanonicalDecimal kv.1) ∧
  (∀ kv ∈ m.c2id, kv.2 ∈ m.index.map Prod.fst)

theorem insertItem_wf (ty : String) (m : GamedataMaps) (i : GDItem)
    (h : m.WF) : (insertItem ty m i).WF := by
  by_cases hk : i.id > 0 ∧ i.className ≠ ""
  · rw [insertItem_kept ty m i hk]
    constructor
    · intro kv hkv
      rcases List.mem_cons.mp hkv with rfl | hmem
      · exact int_toString_canonical i.id hk.1
      · exact h.1 kv hmem
    · intro kv hkv
      rcases List.mem_cons.mp hkv with rfl | hmem
      · exact List.mem_cons_self _ _
      · exact List.mem_cons_of_mem _ (h.2 kv hmem)
  · rw [insertItem_skip ty m i hk]; exact h

theorem foldl_insertItem_wf (ty : String) :
    ∀ (items : List GDItem) (m : GamedataMaps),
      m.WF → ((items.foldl (insertItem ty) m)).WF := by
  intro items
  induction items with
  | nil => intro m h; exact h
  | cons j rest ih =>
    intro m h
    rw [List.foldl_cons]
    exact ih _ (insertItem_wf ty m j h)

theorem loadGamedataIndex_wf (room wall : List GDItem) :
    (loadGamedataIndex room wall).WF := by
  unfold loadGamedataIndex
  exact foldl_insertItem_wf "i" wall _
    (foldl_insertItem_wf "s" room GamedataMaps.empty
      ⟨fun kv hkv => by simp [GamedataMaps.empty] at hkv,
       fun kv hkv => by simp [GamedataMaps.empty] at hkv⟩)

theorem extractStorageKey_shape {c2id id2c : List (String × String)}
    {objectKey pre ext k : String}
    (h : extractStorageKey c2id id2c objectKey pre ext = some k) :
    strEndsWith objectKey ext = true ∧ strStartsWith objectKey pre = true ∧
    ((∃ fn, mget c2id fn = some k) ∨ k = relPathNoExt objectKey pre ext) := by
  unfold extractStorageKey at h
  cases he : strEndsWith objectKey ext with
  | false => rw [he] at h; simp at h
  | true =>
    rw [he] at h
    cases hs : strStartsWith objectKey pre with
    | false => rw [hs] at h; simp at h
    | true =>
      rw [hs] at h
      simp only [Bool.not_true, Bool.false_eq_true, if_false] at h
      refine ⟨rfl, rfl, ?_⟩
      cases hfn : mget c2id (baseNameOf (relPathNoExt objectKey pre ext)) with
      | none =>
        rw [hfn] at h
        exact Or.inr (Option.some.inj h).symm
      | some idv =>
        rw [hfn] at h
        have h2 : (match mget id2c idv with
            | some canonicalCN =>
              if canonicalCN = baseNameOf (relPathNoExt objectKey pre ext) then some idv
              else some (relPathNoExt objectKey pre ext)
            | none => some (relPathNoExt objectKey pre ext)) = some k := h
        cases hrev : mget id2c idv with
        | none =>
          rw [hrev] at h2
          exact Or.inr (Option.some.inj h2).symm
        | some cn =>
          rw [hrev] at h2
          have h3 : (if cn = baseNameOf (relPathNoExt objectKey pre ext) then some idv
              else some (relPathNoExt objectKey pre ext)) = some k := h2
          by_cases hcn : cn = baseNameOf (relPathNoExt objectKey pre ext)
          · rw [if_pos hcn] at h3
            obtain rfl := Option.some.inj h3
            exact Or.inl ⟨_, hfn⟩
          · rw [if_neg hcn] at h3
            exact Or.inr (Option.some.inj h3).symm

/-- C6: every key inserted into the storage set after the gamedata index is
    loaded is either a canonical decimal string that the gamedata index also
    knows, or a relative-path-without-extension of a listed object that the
    gamedata index does not know. -/
theorem loadStorageSet_key_dichotomy (room wall : List GDItem)
    (objectKeys : List String) (pre ext k : String)
    (hk : k ∈ loadStorageSet (loadGamedataIndex room wall) objectKeys pre ext) :
    (isCanonicalDecimal k ∧ mget (loadGamedataIndex room wall).index k ≠ none) ∨
    (mget (loadGamedataIndex room wall).index k = none ∧
      ∃ objectKey ∈ objectKeys, strEndsWith objectKey ext = true ∧
        strStartsWith objectKey pre = true ∧
        k = relPathNoExt objectKey pre ext) := by
  obtain ⟨objectKey, hobj, hex⟩ := List.mem_filterMap.mp hk
  by_cases hidx : mget (loadGamedataIndex room wall).index k = none
  · right
    refine ⟨hidx, objectKey, hobj, ?_⟩
    obtain ⟨h1, h2, h3⟩ := extractStorageKey_shape hex
    rcases h3 with ⟨fn, hfn⟩ | hrp
    · exfalso
      have hkey := (loadGamedataIndex_wf room wall).2 (fn, k) (mget_mem hfn)
      exact mget_ne_none_of_key hkey hidx
    · exact ⟨h1, h2, hrp⟩
  · left
    refine ⟨?_, hidx⟩
    obtain ⟨v, hv⟩ := Option.ne_none_iff_exists'.mp hidx
    exact (loadGamedataIndex_wf room wall).1 (k, v) (mget_mem hv)

/-- C6 witness: a catalog with item 1 (chair) and a listing holding the
    canonical chair object; the extracted key 1 satisfies the dichotomy. -/
theorem loadStorageSet_key_dichotomy_witness :
    "1" ∈ loadStorageSet
        (loadGamedataIndex [⟨1, "chair", "Chair", 1, 1, true, false, false, ""⟩] [])
        ["p/chair.nitro"] "p" ".nitro" ∧
    ((isCanonicalDecimal "1" ∧
      mget (loadGamedataIndex [⟨1, "chair", "Chair", 1, 1, true, false, false, ""⟩]
        []).index "1" ≠ none) ∨
     (mget (loadGamedataIndex [⟨1, "chair", "Chair", 1, 1, true, false, false, ""⟩]
        []).index "1" = none ∧
      ∃ objectKey ∈ ["p/chair.nitro"], strEndsWith objectKey ".nitro" = true ∧
        strStartsWith objectKey "p" = true ∧
        "1" = relPathNoExt objectKey "p" ".nitro")) :=
  ⟨by decide,
    loadStorageSet_key_dichotomy [⟨1, "chair", "Chair", 1, 1, true, false, false, ""⟩]
      [] ["p/chair.nitro"] "p" ".nitro" "1" (by decide)⟩

theorem actionsForResult_key {gdIndex : List (String × GDItem)}
    {opts : ReconcileOptions} {r : ReconcileResult} {a : Action}
    (h : a ∈ actionsForResult gdIndex opts r) : a.key = r.id := by
  unfold actionsForResult at h
  split at h
  · simp only [List.mem_append] at h
    rcases h with (h | h) | h <;>
      (split at h;
       · obtain rfl := List.mem_singleton.mp h; rfl
       · exact absurd h (List.not_mem_nil _))
  · split at h
    · obtain rfl := List.mem_singleton.mp h; rfl
    · exact absurd h (List.not_mem_nil _)

theorem actionsForResult_kinds (gdIndex : List (String × GDItem))
    (opts : ReconcileOptions) (r : ReconcileResult) :
    (∀ a ∈ actionsForResult gdIndex opts r, a.type ≠ ActionType.syncDB) ∨
    (∀ a ∈ actionsForResult gdIndex opts r, a.type = ActionType.syncDB) := by
  unfold actionsForResult
  split
  · left
    intro a h
    simp only [List.mem_append] at h
    rcases h with (h | h) | h <;>
      (split at h;
       · obtain rfl := List.mem_singleton.mp h; simp
       · exact absurd h (List.not_mem_nil _))
  · split
    · right
      intro a h
      obtain rfl := List.mem_singleton.mp h
      rfl
    · left
      intro a h
      exact absurd h (List.not_mem_nil _)

theorem planActions_mem {gdIndex : List (String × GDItem)} {opts : ReconcileOptions} :
    ∀ {results : List ReconcileResult} {a : Action},
      a ∈ planActions gdIndex opts results →
      ∃ r ∈ results, a ∈ actionsForResult gdIndex opts r := by
  intro results
  induction results with
  | nil => intro a h; exact absurd h (List.not_mem_nil _)
  | cons r rs ih =>
    intro a h
    rcases List.mem_append.mp h with h1 | h2
    · exact ⟨r, List.mem_cons_self _ _, h1⟩
    · obtain ⟨r2, hr2, ha2⟩ := ih h2
      exact ⟨r2, List.mem_cons_of_mem _ hr2, ha2⟩

/-- C5: with do_purge=true and pairwise-distinct result keys (which the
    union construction guarantees for plans the engine builds), no key
    receives both a purge (delete) action and a sync_db action in one plan:
    the planning loop continues to the next result after emitting deletes. -/
theorem planActions_purge_sync_disjoint (gdIndex : List (String × GDItem))
    (opts : ReconcileOptions) (results : List ReconcileResult)
    (hp : opts.doPurge = true)
    (hnd : (results.map (fun r => r.id)).Nodup)
    (a b : Action) (ha : a ∈ planActions gdIndex opts results)
    (hb : b ∈ planActions gdIndex opts results)
    (hak : a.type ≠ ActionType.syncDB) (hbk : b.type = ActionType.syncDB) :
    a.key ≠ b.key := by
  induction results with
  | nil => exact absurd ha (List.not_mem_nil _)
  | cons r rs ih =>
    rw [List.map_cons] at hnd
    obtain ⟨hnd1, hnd2⟩ := List.nodup_cons.mp hnd
    rcases List.mem_append.mp ha with ha1 | ha2 <;>
      rcases List.mem_append.mp hb with hb1 | hb2
    · rcases actionsForResult_kinds gdIndex opts r with hall | hall
      · exact absurd hbk (hall b hb1)
      · exact absurd (hall a ha1) hak
    · obtain ⟨r2, hr2, hb3⟩ := planActions_mem hb2
      rw [actionsForResult_key ha1, actionsForResult_key hb3]
      intro heq
      exact hnd1 (heq ▸ List.mem_map_of_mem _ hr2)
    · obtain ⟨r2, hr2, ha3⟩ := planActions_mem ha2
      rw [actionsForResult_key ha3, actionsForResult_key hb1]
      intro heq
      exact hnd1 (heq ▸ List.mem_map_of_mem _ hr2)
    · exact ih hnd2 ha2 hb2

/-- C5 witness: item 1 misses storage (purged), item 2 is complete but
    mismatched (synced); the delete and sync actions carry different keys. -/
theorem planActions_purge_sync_disjoint_witness :
    (⟨false, true, true, true⟩ : ReconcileOptions).doPurge = true ∧
    (([⟨"1", "A", true, false, true, [], []⟩,
       ⟨"2", "B", true, true, true, ["width"], []⟩] :
        List ReconcileResult).map (fun r => r.id)).Nodup ∧
    (⟨ActionType.deleteDB, "1", "missing in: [storage]", none⟩ : Action) ∈
      planActions [("2", gdLamp)] ⟨false, true, true, true⟩
        [⟨"1", "A", true, false, true, [], []⟩,
         ⟨"2", "B", true, true, true, ["width"], []⟩] ∧
    (⟨ActionType.syncDB, "2", "mismatch: [width]", some gdLamp⟩ : Action) ∈
      planActions [("2", gdLamp)] ⟨false, true, true, true⟩
        [⟨"1", "A", true, false, true, [], []⟩,
         ⟨"2", "B", true, true, true, ["width"], []⟩] ∧
    (⟨ActionType.deleteDB, "1", "missing in: [storage]", none⟩ : Action).key ≠
      (⟨ActionType.syncDB, "2", "mismatch: [width]", some gdLamp⟩ : Action).key :=
  ⟨rfl, by decide, by decide, by decide,
    planActions_purge_sync_disjoint [("2", gdLamp)] ⟨false, true, true, true⟩
      [⟨"1", "A", true, false, true, [], []⟩,
       ⟨"2", "B", true, true, true, ["width"], []⟩]
      rfl (by decide)
      ⟨ActionType.deleteDB, "1", "missing in: [storage]", none⟩
      ⟨ActionType.syncDB, "2", "mismatch: [width]", some gdLamp⟩
      (by decide) (by decide) (by decide) (by decide)⟩

theorem decodeRows_mem :
    ∀ {rows : List JRow} {items : List GDItem}, decodeRows rows = some items →
      ∀ {r : JRow}, r ∈ rows → ∀ {i : GDItem}, decodeGDItem r = some i → i ∈ items := by
  intro rows
  induction rows with
  | nil => intro items _ r hr; exact absurd hr (List.not_mem_nil _)
  | cons r0 rs ih =>
    intro items h r hr i hi
    unfold decodeRows at h
    cases h0 : decodeGDItem r0 with
    | none => rw [h0] at h; simp at h
    | some i0 =>
      rw [h0] at h
      cases h1 : decodeRows rs with
      | none => rw [h1] at h; simp at h
      | some is =>
        rw [h1] at h
        obtain rfl := Option.some.inj h
        rcases List.mem_cons.mp hr with rfl | hmem
        · rw [h0] at hi
          obtain rfl := Option.some.inj hi
          exact List.mem_cons_self _ _
        · exact List.mem_cons_of_mem _ (ih h1 hmem hi)

theorem decodeGDItem_eq {r : JRow} {i : GDItem} (h : decodeGDItem r = some i) :
    getInt? r "id" = some i.id ∧ getStr? r "classname" = some i.className ∧
    getStr? r "name" = some i.name ∧ getInt? r "xdim" = some i.xdim ∧
    getInt? r "ydim" = some i.ydim ∧ getBool? r "cansiton" = some i.canSitOn ∧
    getBool? r "canstandon" = some i.canStandOn ∧
    getBool? r "canlayon" = some i.canLayOn := by
  unfold decodeGDItem at h
  cases e1 : getInt? r "id" with
  | none => rw [e1] at h; simp at h
  | some idv =>
  rw [e1] at h
  cases e2 : getStr? r "classname" with
  | none => rw [e2] at h; simp at h
  | some cn =>
  rw [e2] at h
  cases e3 : getStr? r "name" with
  | none => rw [e3] at h; simp at h
  | some nm =>
  rw [e3] at h
  cases e4 : getInt? r "xdim" with
  | none => rw [e4] at h; simp at h
  | some xd =>
  rw [e4] at h
  cases e5 : getInt? r "ydim" with
  | none => rw [e5] at h; simp at h
  | some yd =>
  rw [e5] at h
  cases e6 : getBool? r "cansiton" with
  | none => rw [e6] at h; simp at h
  | some cs =>
  rw [e6] at h
  cases e7 : getBool? r "canstandon" with
  | none => rw [e7] at h; simp at h
  | some cst =>
  rw [e7] at h
  cases e8 : getBool? r "canlayon" with
  | none => rw [e8] at h; simp at h
  | some cl =>
  rw [e8] at h
  have h2 : some (GDItem.mk idv cn nm xd yd cs cst cl "") = some i := h
  obtain rfl := Option.some.inj h2
  exact ⟨rfl, rfl, rfl, rfl, rfl, rfl, rfl, rfl⟩

theorem getInt?_lookup {r : JRow} {k : String} {x : Int}
    (hg : getInt? r k = some x) {v : JVal} (hv : mget r k = some v) :
    v = JVal.jint x := by
  unfold getInt? at hg
  rw [hv] at hg
  cases v with
  | jint i => obtain rfl := Option.some.inj hg; rfl
  | jstr s => simp at hg
  | jbool b => simp at hg

theorem getStr?_lookup {r : JRow} {k : String} {x : String}
    (hg : getStr? r k = some x) {v : JVal} (hv : mget r k = some v) :
    v = JVal.jstr x := by
  unfold getStr? at hg
  rw [hv] at hg
  cases v with
  | jint i => simp at hg
  | jstr s => obtain rfl := Option.some.inj hg; rfl
  | jbool b => simp at hg

theorem getBool?_lookup {r : JRow} {k : String} {x : Bool}
    (hg : getBool? r k = some x) {v : JVal} (hv : mget r k = some v) :
    v = JVal.jbool x := by
  unfold getBool? at hg
  rw [hv] at hg
  cases v with
  | jint i => simp at hg
  | jstr s => simp at hg
  | jbool b => obtain rfl := Option.some.inj hg; rfl

theorem encode_preserves_field {r : JRow} {i : GDItem} (hi : decodeGDItem r = some i)
    {k : String} (hk : k ∈ modeledGamedataKeys) {v : JVal} (hv : mget r k = some v) :
    mget (encodeGDItem i) k = some v := by
  obtain ⟨e1, e2, e3, e4, e5, e6, e7, e8⟩ := decodeGDItem_eq hi
  simp only [modeledGamedataKeys, List.mem_cons, List.not_mem_nil, or_false] at hk
  rcases hk with rfl | rfl | rfl | rfl | rfl | rfl | rfl | rfl
  · rw [getInt?_lookup e1 hv]; rfl
  · rw [getStr?_lookup e2 hv]; rfl
  · rw [getStr?_lookup e3 hv]; rfl
  · rw [getInt?_lookup e4 hv]; rfl
  · rw [getInt?_lookup e5 hv]; rfl
  · rw [getBool?_lookup e6 hv]; rfl
  · rw [getBool?_lookup e7 hv]; rfl
  · rw [getBool?_lookup e8 hv]; rfl

/-- C8 counterexample: a retained row carrying the extra field custom loses
    that field across one delete_gamedata_batch rewrite cycle, so not every
    field present on a retained input row survives with the same value. -/
theorem deleteGamedataBatch_drops_unknown_field :
    deleteGamedataBatch ["99"] docC8 = some outDocC8 ∧
    mget inRowC8 "custom" = some (JVal.jstr "x") ∧
    mget outRowC8 "custom" = none := by decide

/-- C8 amended: delete_gamedata_batch keeps every row whose decoded ID is
    not among the parsed keys, and on those retained rows it preserves every
    field of the modeled set (id, classname, name, xdim, ydim, cansiton,
    canstandon, canlayon) with its value; fields outside the modeled set are
    not carried through the rewrite. -/
theorem deleteGamedataBatch_preserves_modeled (keys : List String) (doc out : JDoc)
    (hne : keys ≠ []) (h : deleteGamedataBatch keys doc = some out) :
    (∀ r ∈ doc.room, ∀ i, decodeGDItem r = some i →
      (keys.filterMap atoi?).contains i.id = false →
      encodeGDItem i ∈ out.room ∧
      ∀ k ∈ modeledGamedataKeys, ∀ v, mget r k = some v →
        mget (encodeGDItem i) k = some v) ∧
    (∀ r ∈ doc.wall, ∀ i, decodeGDItem r = some i →
      (keys.filterMap atoi?).contains i.id = false →
      encodeGDItem i ∈ out.wall ∧
      ∀ k ∈ modeledGamedataKeys, ∀ v, mget r k = some v →
        mget (encodeGDItem i) k = some v) := by
  unfold deleteGamedataBatch at h
  have hemp : keys.isEmpty = false := by
    cases keys with
    | nil => exact absurd rfl hne
    | cons k ks => rfl
  rw [hemp, if_neg Bool.false_ne_true] at h
  cases hroom : decodeRows doc.room with
  | none => rw [hroom] at h; simp at h
  | some roomItems =>
  rw [hroom] at h
  cases hwall : decodeRows doc.wall with
  | none => rw [hwall] at h; simp at h
  | some wallItems =>
  rw [hwall] at h
  obtain rfl := Option.some.inj h
  constructor
  · intro r hr i hi hid
    refine ⟨?_, fun k hk v hv => encode_preserves_field hi hk hv⟩
    apply List.mem_map_of_mem
    exact List.mem_filter.mpr ⟨decodeRows_mem hroom hr hi, by rw [hid]; rfl⟩
  · intro r hr i hi hid
    refine ⟨?_, fun k hk v hv => encode_preserves_field hi hk hv⟩
    apply List.mem_map_of_mem
    exact List.mem_filter.mpr ⟨decodeRows_mem hwall hr hi, by rw [hid]; rfl⟩

/-- C8 amended witness: deleting key 99 from the sample document retains the
    row with id 1 and preserves its modeled fields. -/
theorem deleteGamedataBatch_preserves_modeled_witness :
    (["99"] : List String) ≠ [] ∧
    deleteGamedataBatch ["99"] docC8 = some outDocC8 ∧
    ((∀ r ∈ docC8.room, ∀ i, decodeGDItem r = some i →
      ((["99"] : List String).filterMap atoi?).contains i.id = false →
      encodeGDItem i ∈ outDocC8.room ∧
      ∀ k ∈ modeledGamedataKeys, ∀ v, mget r k = some v →
        mget (encodeGDItem i) k = some v) ∧
    (∀ r ∈ docC8.wall, ∀ i, decodeGDItem r = some i →
      ((["99"] : List String).filterMap atoi?).contains i.id = false →
      encodeGDItem i ∈ outDocC8.wall ∧
      ∀ k ∈ modeledGamedataKeys, ∀ v, mget r k = some v →
        mget (encodeGDItem i) k = some v)) :=
  ⟨by decide, by decide,
    deleteGamedataBatch_preserves_modeled ["99"] docC8 outDocC8 (by decide) (by decide)⟩

theorem deleteStorageBatch_nil_keys (id2c : List (String × String)) (pre : String)
    (objects : List String) : deleteStorageBatch id2c pre [] objects = objects := by
  unfold deleteStorageBatch
  induction objects with
  | nil => rfl
  | cons o os ih => simpa [List.filter_cons] using ih

/-- C10: with the plan confirmed and not a dry run, a plan whose actions are
    all delete_db executes through the batch variant of the adapter: ApplyPlan
    adds the full group size to the executed count and returns no error,
    while every database row actually removed was matched by some numeric
    key of the group - a non-numeric key in the group, such as the
    relative-path key of a storage orphan, performs no deletion, so the returned
    executed count can exceed the number of mutations performed. -/
theorem applyPlan_deleteDB_overcount (p : ProfileFlags) (id2c : List (String × String))
    (pre : String) (actions : List Action) (opts : ReconcileOptions) (w : World)
    (hc : opts.confirmed = true) (hd : opts.dryRun = false)
    (hall : ∀ a ∈ actions, a.type = ActionType.deleteDB)
    (k : String) (hk : k ∈ actions.map (fun a => a.key)) (hbad : atoi? k = none) :
    (applyPlan p id2c pre actions opts w).1 = actions.length ∧
    (applyPlan p id2c pre actions opts w).2.1 = none ∧
    ∀ r ∈ w.dbRows, r ∉ (applyPlan p id2c pre actions opts w).2.2.dbRows →
      ∃ k2 ∈ actions.map (fun a => a.key), atoi? k2 = some r.spriteId := by
  have hf1 : actions.filter (fun a => a.type == ActionType.deleteDB) = actions := by
    apply List.filter_eq_self.mpr
    intro a ha
    rw [hall a ha]
    rfl
  have hf2 : actions.filter (fun a => a.type == ActionType.deleteGamedata) = [] := by
    apply List.filter_eq_nil_iff.mpr
    intro a ha
    rw [hall a ha]
    simp
  have hf3 : actions.filter (fun a => a.type == ActionType.deleteStorage) = [] := by
    apply List.filter_eq_nil_iff.mpr
    intro a ha
    rw [hall a ha]
    simp
  have hf4 : actions.filter (fun a => a.type == ActionType.syncDB) = [] := by
    apply List.filter_eq_nil_iff.mpr
    intro a ha
    rw [hall a ha]
    simp
  have happ : applyPlan p id2c pre actions opts w =
      (actions.length, none,
        { w with dbRows := deleteDBBatch (actions.map (fun a => a.key)) w.dbRows }) := by
    unfold applyPlan
    rw [hc, hd]
    simp only [Bool.not_true, Bool.false_or, Bool.false_eq_true, if_false,
      hf1, hf2, hf3, hf4, List.map_nil]
    rw [deleteStorageBatch_nil_keys]
    have hgd : deleteGamedataBatch []
        ({ w with dbRows := deleteDBBatch (actions.map (fun a => a.key)) w.dbRows} :
          World).gamedata = some w.gamedata := rfl
    rw [hgd]
    simp [syncDBBatch]
  refine ⟨by rw [happ], by rw [happ], ?_⟩
  intro r hr hnot
  rw [happ] at hnot
  simp only at hnot
  unfold deleteDBBatch at hnot
  by_cases hemp : ((actions.map (fun a => a.key)).filterMap atoi?).isEmpty
  · rw [if_pos hemp] at hnot
    exact absurd hr hnot
  · rw [if_neg hemp] at hnot
    have hcont : ((actions.map (fun a => a.key)).filterMap atoi?).contains r.spriteId
        = true := by
      by_contra hno
      have hfalse : ((actions.map (fun a => a.key)).filterMap atoi?).contains r.spriteId
          = false := Bool.eq_false_iff.mpr hno
      have : r ∈ w.dbRows.filter
          (fun r0 => !(((actions.map (fun a => a.key)).filterMap atoi?).contains
            r0.spriteId)) :=
        List.mem_filter.mpr ⟨hr, by rw [hfalse]; rfl⟩
      exact hnot this
    have hmem : r.spriteId ∈ (actions.map (fun a => a.key)).filterMap atoi? := by
      simpa using hcont
    obtain ⟨k2, hk2, hk2e⟩ := List.mem_filterMap.mp hmem
    exact ⟨k2, hk2, hk2e⟩

/-- C10 witness: one delete_db action keyed by the non-numeric storage-orphan
    key ghost over a one-row table: executed is 1, no error, and the table is
    untouched, so executed exceeds the zero mutations performed. -/
theorem applyPlan_deleteDB_overcount_witness :
    (∀ a ∈ [(⟨ActionType.deleteDB, "ghost", "missing in: [gamedata]", none⟩ : Action)],
      a.type = ActionType.deleteDB) ∧
    "ghost" ∈ ([(⟨ActionType.deleteDB, "ghost", "missing in: [gamedata]", none⟩ : Action)]).map
      (fun a => a.key) ∧
    atoi? "ghost" = none ∧
    (applyPlan pAll [] "bundled"
      [⟨ActionType.deleteDB, "ghost", "missing in: [gamedata]", none⟩]
      ⟨false, true, false, true⟩ ⟨[rowLamp], ⟨[], []⟩, []⟩).2.2.dbRows = [rowLamp] ∧
    ((applyPlan pAll [] "bundled"
        [⟨ActionType.deleteDB, "ghost", "missing in: [gamedata]", none⟩]
        ⟨false, true, false, true⟩ ⟨[rowLamp], ⟨[], []⟩, []⟩).1
      = [(⟨ActionType.deleteDB, "ghost", "missing in: [gamedata]", none⟩ : Action)].length ∧
    (applyPlan pAll [] "bundled"
        [⟨ActionType.deleteDB, "ghost", "missing in: [gamedata]", none⟩]
        ⟨false, true, false, true⟩ ⟨[rowLamp], ⟨[], []⟩, []⟩).2.1 = none ∧
    ∀ r ∈ ([rowLamp] : List DBRow),
      r ∉ (applyPlan pAll [] "bundled"
        [⟨ActionType.deleteDB, "ghost", "missing in: [gamedata]", none⟩]
        ⟨false, true, false, true⟩ ⟨[rowLamp], ⟨[], []⟩, []⟩).2.2.dbRows →
      ∃ k2 ∈ ([(⟨ActionType.deleteDB, "ghost", "missing in: [gamedata]", none⟩ : Action)]).map
        (fun a => a.key), atoi? k2 = some r.spriteId) :=
  ⟨by decide, by decide, by decide, by decide,
    applyPlan_deleteDB_overcount pAll [] "bundled"
      [⟨ActionType.deleteDB, "ghost", "missing in: [gamedata]", none⟩]
      ⟨false, true, false, true⟩ ⟨[rowLamp], ⟨[], []⟩, []⟩
      rfl rfl (by decide) "ghost" (by decide) (by decide)⟩

end AssetManager
